import Mathlib

/-!
Verification development for the disaggregated prefill/decode proxy server
(`disagg_prefill_proxy_server.py`).

The proxy keeps, per role (prefill / decode), an insertion-ordered mapping
`http_address ↦ (zmq_address, stamp)`; Python dicts preserve insertion order,
assignment to an existing key updates the value in place keeping its position,
and assignment to a fresh key appends at the end.  We embed such a mapping as
an association list and the proxy's request handler as a sequential function
over an explicit proxy state, with the outcomes of the outbound HTTP calls
supplied as oracles.
-/

namespace DisaggProxy

/-- Heartbeat timeout (`DEFAULT_PING_SECONDS = 5`). -/
def DEFAULT_PING_SECONDS : Nat := 5

/-- One registry entry: `(http_address, (zmq_address, stamp))`, matching the
Python value `instances[http_address] = (zmq_address, stamp)`. -/
abbrev Entry := String × String × Nat

/-- A role's registry: the insertion-ordered item list of the Python dict
`prefill_instances` / `decode_instances`. -/
abbrev Registry := List Entry

/-- Python dict assignment `d[k] = v`: update in place when the key is
present (keeping its position), append at the end when it is fresh. -/
def dictInsert {β : Type} (k : String) (v : β) : List (String × β) → List (String × β)
  | [] => [(k, v)]
  | (k', v') :: rest =>
    if k' = k then (k, v) :: rest else (k', v') :: dictInsert k v rest

/-- Python `d.get(k)`: the value stored under `k`, if any. -/
def dictGet {β : Type} (k : String) : List (String × β) → Option β
  | [] => none
  | (k', v) :: rest => if k' = k then some v else dictGet k rest

/-- Python `k in d`. -/
def dictContains {β : Type} (k : String) (d : List (String × β)) : Bool :=
  d.any (fun e => e.1 == k)

/-- `_remove_oldest_instances`: repeatedly look at the oldest entry in
insertion order; if its stamp has passed (`stamp ≤ now`, i.e. not
`value[1] > time.time()`), pop it and continue, otherwise stop. -/
def remove_oldest_instances (now : Nat) : Registry → Registry
  | [] => []
  | e :: rest => if now < e.2.2 then e :: rest else remove_oldest_instances now rest

/-- The registry update performed by `_listen_for_register` for one
registration message of a given role: dict assignment of
`(zmq_address, now + DEFAULT_PING_SECONDS)` under key `http_address`,
followed immediately by an eviction pass. -/
def register_instance (now : Nat) (http_address zmq_address : String)
    (reg : Registry) : Registry :=
  remove_oldest_instances now
    (dictInsert http_address (zmq_address, now + DEFAULT_PING_SECONDS) reg)

/-- `init_static_instances` for one role: for each configured address,
`instances[addr] = (addr, time.time() + 999999)`. -/
def init_static_instances (addrs : List String) (now : Nat) (reg : Registry) :
    Registry :=
  addrs.foldl (fun r addr => dictInsert addr (addr, now + 999999) r) reg

/-- One mutation of a role's registry: a dynamic registration message handled
by `_listen_for_register`, or one static-configuration insert done by
`init_static_instances`. -/
inductive RegEvent where
  | register (now : Nat) (http_address zmq_address : String)
  | staticInsert (now : Nat) (addr : String)

/-- Apply one registry event. -/
def applyEvent (reg : Registry) : RegEvent → Registry
  | .register now h z => register_instance now h z reg
  | .staticInsert now a => dictInsert a (a, now + 999999) reg

/-- Run a sequence of registry events from the empty registry the process
starts with. -/
def runEvents (evs : List RegEvent) : Registry :=
  evs.foldl applyEvent []

/-! ### Request-handling model -/

/-- A JSON scalar value — enough to model the payload fields the handler
reads or writes. -/
inductive JVal where
  | num (n : Int)
  | str (s : String)
  | bool (b : Bool)
  | null
deriving Repr, DecidableEq

/-- A JSON object payload, as the insertion-ordered dict the handler copies
and mutates. -/
abbrev Payload := List (String × JVal)

/-- The prefill probe payload built by `handle_request`: a copy of the
client payload with `max_tokens` assigned 1 and, when the key is present,
`max_completion_tokens` assigned 1. -/
def mkPrefillRequest (original_request_data : Payload) : Payload :=
  let prefill_request := dictInsert "max_tokens" (JVal.num 1) original_request_data
  if dictContains "max_completion_tokens" prefill_request then
    dictInsert "max_completion_tokens" (JVal.num 1) prefill_request
  else prefill_request

/-- The correlation identifier built by `handle_request`; the random hex
suffix produced by `random_uuid()` is passed in. -/
def request_id (prefill_zmq_addr decode_zmq_addr random_hex : String) : String :=
  s!"___prefill_addr_{prefill_zmq_addr}___decode_addr_" ++
    s!"{decode_zmq_addr}_{random_hex}"

/-- The proxy's shared mutable state: the round-robin counter `count` and
the two role registries. -/
structure ProxyState where
  count : Nat
  prefill_instances : Registry
  decode_instances : Registry
deriving Repr, DecidableEq

/-- One outbound HTTP POST issued by the proxy. -/
structure HttpCall where
  url : String
  payload : Payload
  header_request_id : String
deriving Repr, DecidableEq

/-- The response `handle_request` produces for the client: a JSON error with
an HTTP status, or the streamed decode relay. -/
inductive ProxyResponse where
  | json_error (status : Nat) (msg : String)
  | streamed
deriving Repr, DecidableEq

/-- One client request together with the environment-given outcomes: the
HTTP status of the prefill call (`none` meaning a transport error) and the
random hex suffix drawn for this request. -/
structure ReqInput where
  payload : Payload
  path : String
  prefill_status : Option Nat
  random_hex : String
deriving Repr, DecidableEq

/-- What one `handle_request` invocation did: the client response, the
proxy state afterwards, the outbound calls issued, and — when instance
selection was reached — the selected indices and chosen instances (as
printed by the request log line). -/
structure ReqOutcome where
  response : ProxyResponse
  state : ProxyState
  calls : List HttpCall
  selIdx : Option (Nat × Nat)
  chosen : Option ((String × String) × (String × String))
deriving Repr, DecidableEq

/-- Whether `forward_request` raises for a given outcome of the HTTP call:
it does on a transport error (`none`) and on every status other than 200
(only `response.status == 200` streams the body back). -/
def forwardRaises (result : Option Nat) : Bool :=
  match result with
  | none => true
  | some status => status != 200

/-- Placeholder entry for the (unreachable) out-of-range list read. -/
def dummyEntry : Entry := ("", "", 0)

/-- Sequential model of `handle_request`: `st` is the shared proxy state
when the request is handled and `req` the client request with its oracle
outcomes.  Mirrors the source: empty-pool checks (503), prefill payload
copy, round-robin selection of one instance per role with the same counter
value, counter increment, request-id construction, prefill call (500 on
failure, no decode call), then the decode call whose response is streamed. -/
def handle_request (st : ProxyState) (req : ReqInput) : ReqOutcome :=
  if st.prefill_instances.isEmpty then
    ⟨.json_error 503 "没有可用的 Prefill 实例", st, [], none, none⟩
  else if st.decode_instances.isEmpty then
    ⟨.json_error 503 "没有可用的 Decode 实例", st, [], none, none⟩
  else
    let prefill_request := mkPrefillRequest req.payload
    let prefill_list := st.prefill_instances
    let pIdx := st.count % prefill_list.length
    let pEntry := prefill_list.getD pIdx dummyEntry
    let prefill_addr := pEntry.1
    let prefill_zmq_addr := pEntry.2.1
    let decode_list := st.decode_instances
    let dIdx := st.count % decode_list.length
    let dEntry := decode_list.getD dIdx dummyEntry
    let decode_addr := dEntry.1
    let decode_zmq_addr := dEntry.2.1
    let st' : ProxyState := { st with count := st.count + 1 }
    let rid := request_id prefill_zmq_addr decode_zmq_addr req.random_hex
    let prefillCall : HttpCall :=
      ⟨"http://" ++ prefill_addr ++ req.path, prefill_request, rid⟩
    let sel := some (pIdx, dIdx)
    let cho := some ((prefill_addr, prefill_zmq_addr), (decode_addr, decode_zmq_addr))
    if forwardRaises req.prefill_status then
      ⟨.json_error 500 "Prefill 失败", st', [prefillCall], sel, cho⟩
    else
      let decodeCall : HttpCall :=
        ⟨"http://" ++ decode_addr ++ req.path, req.payload, rid⟩
      ⟨.streamed, st', [prefillCall, decodeCall], sel, cho⟩

/-- Placeholder request for out-of-range list reads. -/
def dummyReq : ReqInput := ⟨[], "", none, ""⟩

/-- Placeholder outcome for out-of-range list reads. -/
def dummyOutcome : ReqOutcome := ⟨.streamed, ⟨0, [], []⟩, [], none, none⟩

/-- Run a sequence of client requests sequentially through
`handle_request`, threading the proxy state. -/
def runRequests (st : ProxyState) : List ReqInput → ProxyState × List ReqOutcome
  | [] => (st, [])
  | req :: rest =>
    let out := handle_request st req
    let next := runRequests out.state rest
    (next.1, out :: next.2)

/-- The body of the `/stats` endpoint: the counter as `total_requests` plus
both registries with their expiry stamps. -/
structure StatsResponse where
  total_requests : Nat
  prefill_instances : Registry
  decode_instances : Registry
deriving Repr, DecidableEq

/-- The `/stats` endpoint: a read-only view of the proxy state. -/
def stats (st : ProxyState) : StatsResponse :=
  ⟨st.count, st.prefill_instances, st.decode_instances⟩

/-! ### Basic association-list lemmas -/

theorem dictGet_dictInsert_self {β : Type} (k : String) (v : β)
    (d : List (String × β)) : dictGet k (dictInsert k v d) = some v := by
  induction d with
  | nil => simp [dictInsert, dictGet]
  | cons e rest ih =>
    obtain ⟨k', v'⟩ := e
    by_cases h : k' = k <;> simp [dictInsert, dictGet, h, ih]

theorem dictGet_dictInsert_ne {β : Type} (k k' : String) (v : β)
    (d : List (String × β)) (hne : k' ≠ k) :
    dictGet k' (dictInsert k v d) = dictGet k' d := by
  have hne' : k ≠ k' := Ne.symm hne
  induction d with
  | nil => simp [dictInsert, dictGet, hne']
  | cons e rest ih =>
    obtain ⟨k₀, v₀⟩ := e
    by_cases h : k₀ = k
    · subst h
      simp [dictInsert, dictGet, hne']
    · simp [dictInsert, dictGet, h, ih]

theorem dictInsert_of_not_mem {β : Type} (k : String) (v : β)
    (d : List (String × β)) (h : k ∉ d.map Prod.fst) :
    dictInsert k v d = d ++ [(k, v)] := by
  induction d with
  | nil => simp [dictInsert]
  | cons e rest ih =>
    simp only [List.map_cons, List.mem_cons] at h
    push_neg at h
    have h1 : e.1 ≠ k := Ne.symm h.1
    simp [dictInsert, h1, ih h.2]

theorem dictInsert_keys_of_mem {β : Type} (k : String) (v : β)
    (d : List (String × β)) (h : k ∈ d.map Prod.fst) :
    (dictInsert k v d).map Prod.fst = d.map Prod.fst := by
  induction d with
  | nil => simp at h
  | cons e rest ih =>
    obtain ⟨k₀, v₀⟩ := e
    by_cases hk : k₀ = k
    · simp [dictInsert, hk]
    · simp only [List.map_cons, List.mem_cons] at h
      rcases h with h | h

      · exact absurd h.symm hk
      · simp [dictInsert, hk, ih h]

theorem mem_of_mem_dictInsert {β : Type} (k : String) (v : β)
    (d : List (String × β)) (e : String × β) (he : e ∈ dictInsert k v d) :
    e = (k, v) ∨ e ∈ d := by
  induction d with
  | nil => simpa [dictInsert] using he
  | cons e₀ rest ih =>
    obtain ⟨k₀, v₀⟩ := e₀
    by_cases hk : k₀ = k
    · subst hk
      simp only [dictInsert, if_pos rfl, if_true, List.mem_cons] at he
      rcases he with he | he
      · exact Or.inl he
      · exact Or.inr (List.mem_cons_of_mem _ he)
    · simp only [dictInsert, if_neg hk, List.mem_cons] at he
      rcases he with he | he
      · exact Or.inr (by simp [he])
      · rcases ih he with h | h
        · exact Or.inl h
        · exact Or.inr (List.mem_cons_of_mem _ h)

theorem nodup_keys_dictInsert {β : Type} (k : String) (v : β)
    (d : List (String × β)) (h : (d.map Prod.fst).Nodup) :
    ((dictInsert k v d).map Prod.fst).Nodup := by
  by_cases hm : k ∈ d.map Prod.fst
  · rw [dictInsert_keys_of_mem k v d hm]; exact h
  · rw [dictInsert_of_not_mem k v d hm]
    simp only [List.map_append, List.map_cons, List.map_nil]
    refine List.Nodup.append h (List.nodup_singleton _) ?_
    intro x hx hx'
    simp only [List.mem_singleton] at hx'
    subst hx'
    exact hm hx

/-! ### Eviction (`_remove_oldest_instances`) -/

/-- The eviction pass returns a suffix of the registry. -/
theorem remove_oldest_suffix (now : Nat) (reg : Registry) :
    ∃ removed : Registry, reg = removed ++ remove_oldest_instances now reg ∧
      ∀ e ∈ removed, e.2.2 ≤ now := by
  induction reg with
  | nil => exact ⟨[], by simp [remove_oldest_instances]⟩
  | cons e rest ih =>
    by_cases h : now < e.2.2
    · exact ⟨[], by simp [remove_oldest_instances, h]⟩
    · obtain ⟨rem, hrem, hall⟩ := ih
      refine ⟨e :: rem, ?_, ?_⟩
      · simp [remove_oldest_instances, h]
        exact hrem
      · intro x hx
        rcases List.mem_cons.mp hx with hx | hx
        · subst hx; omega
        · exact hall x hx

/-- After the eviction pass the oldest remaining entry (if any) has not
expired. -/
theorem remove_oldest_head_fresh (now : Nat) (reg : Registry)
    (e : Entry) (rest : Registry)
    (h : remove_oldest_instances now reg = e :: rest) : now < e.2.2 := by
  induction reg with
  | nil => simp [remove_oldest_instances] at h
  | cons e₀ rest₀ ih =>
    by_cases h₀ : now < e₀.2.2
    · rw [remove_oldest_instances, if_pos h₀] at h
      cases h
      exact h₀
    · rw [remove_oldest_instances, if_neg h₀] at h
      exact ih h

/-- C1: for every role mapping and every eviction pass, the pass removes
exactly the maximal prefix of expired entries in insertion order — every
removed entry has an `expires_at` that has passed, what remains is the
untouched remainder of the list in order, and its first entry (the oldest
remaining one) has not expired.  In particular entries after the first
non-expired one survive even if they are themselves expired. -/
theorem remove_oldest_instances_spec (now : Nat) (reg : Registry) :
    ∃ removed : Registry,
      reg = removed ++ remove_oldest_instances now reg ∧
      (∀ e ∈ removed, e.2.2 ≤ now) ∧
      (∀ e rest, remove_oldest_instances now reg = e :: rest → now < e.2.2) := by
  obtain ⟨rem, hrem, hall⟩ := remove_oldest_suffix now reg
  exact ⟨rem, hrem, hall, fun e rest h => remove_oldest_head_fresh now reg e rest h⟩

/-! ### Registration invariant (C2) -/

theorem remove_oldest_sublist (now : Nat) (reg : Registry) :
    (remove_oldest_instances now reg).Sublist reg := by
  obtain ⟨rem, hrem, _⟩ := remove_oldest_suffix now reg
  conv_rhs => rw [hrem]
  exact List.sublist_append_right rem _

theorem nodup_keys_applyEvent (reg : Registry) (ev : RegEvent)
    (h : (reg.map Prod.fst).Nodup) : ((applyEvent reg ev).map Prod.fst).Nodup := by
  cases ev with
  | register now ha hz =>
    have h1 := nodup_keys_dictInsert ha (hz, now + DEFAULT_PING_SECONDS) reg h
    have h2 := (remove_oldest_sublist now
      (dictInsert ha (hz, now + DEFAULT_PING_SECONDS) reg)).map Prod.fst
    exact h1.sublist h2
  | staticInsert now a =>
    exact nodup_keys_dictInsert a (a, now + 999999) reg h

theorem nodup_keys_runEvents_from (evs : List RegEvent) (reg : Registry)
    (h : (reg.map Prod.fst).Nodup) :
    ((evs.foldl applyEvent reg).map Prod.fst).Nodup := by
  induction evs generalizing reg with
  | nil => exact h
  | cons ev rest ih =>
    exact ih (applyEvent reg ev) (nodup_keys_applyEvent reg ev h)

/-- C2: (1) starting from the empty registry, every sequence of dynamic
registrations and static-configuration inserts leaves at most one entry per
`public_address` in a role's mapping; (2) a dict assignment under a fresh
address appends the entry at the end of the insertion order; (3) a dict
assignment under an already-present address keeps the key sequence (hence the
entry's position) unchanged, overwrites that key's value, and leaves every
other key's value untouched. -/
theorem register_upsert_spec :
    (∀ evs : List RegEvent, ((runEvents evs).map Prod.fst).Nodup) ∧
    (∀ (k : String) (v : String × Nat) (reg : Registry),
      k ∉ reg.map Prod.fst → dictInsert k v reg = reg ++ [(k, v)]) ∧
    (∀ (k : String) (v : String × Nat) (reg : Registry),
      k ∈ reg.map Prod.fst →
        (dictInsert k v reg).map Prod.fst = reg.map Prod.fst ∧
        dictGet k (dictInsert k v reg) = some v ∧
        ∀ k', k' ≠ k → dictGet k' (dictInsert k v reg) = dictGet k' reg) := by
  refine ⟨fun evs => nodup_keys_runEvents_from evs [] (by simp), ?_, ?_⟩
  · exact fun k v reg h => dictInsert_of_not_mem k v reg h
  · intro k v reg h
    exact ⟨dictInsert_keys_of_mem k v reg h, dictGet_dictInsert_self k v reg,
      fun k' hk' => dictGet_dictInsert_ne k k' v reg hk'⟩

/-- Witness for `register_upsert_spec`: re-registering `h1:1` (first with
transport `z1:1`, then with `z2:2`) while `h2:2` is also present keeps a
single `h1:1` entry in first position with the refreshed value, and a fresh
key is appended at the end. -/
theorem register_upsert_spec_witness :
    dictInsert "h1:1" ("z2:2", 9)
        [("h1:1", ("z1:1", 5)), ("h2:2", ("z0:0", 7))] =
      [("h1:1", ("z2:2", 9)), ("h2:2", ("z0:0", 7))] ∧
    ((dictInsert "h1:1" (("z2:2" : String), (9 : Nat))
        [("h1:1", ("z1:1", 5)), ("h2:2", ("z0:0", 7))]).map Prod.fst =
      [("h1:1" : String), "h2:2"] ∧
      dictGet "h1:1" (dictInsert "h1:1" (("z2:2" : String), (9 : Nat))
        [("h1:1", ("z1:1", 5)), ("h2:2", ("z0:0", 7))]) = some ("z2:2", 9)) ∧
    dictInsert "h3:3" (("z3:3" : String), (9 : Nat))
        [("h1:1", ("z1:1", 5))] = [("h1:1", ("z1:1", 5)), ("h3:3", ("z3:3", 9))] := by
  have h3 := register_upsert_spec.2.2 "h1:1" ("z2:2", 9)
    [("h1:1", ("z1:1", 5)), ("h2:2", ("z0:0", 7))] (by decide)
  have h2 := register_upsert_spec.2.1 "h3:3" ("z3:3", 9)
    [("h1:1", ("z1:1", 5))] (by decide)
  refine ⟨by decide, ⟨?_, ?_⟩, ?_⟩
  · simpa using h3.1
  · exact h3.2.1
  · simpa using h2

/-! ### Request-id format, empty-pool and prefill-failure behaviour -/

theorem request_id_eq (p d h : String) :
    request_id p d h =
      "___prefill_addr_" ++ p ++ "___decode_addr_" ++ d ++ "_" ++ h := by
  simp [request_id, String.append_assoc, toString, instToStringString,
    String.append_empty, String.empty_append]

/-- C4: for every request that reaches instance selection (both pools
nonempty), the generated request id — as carried by every outbound HTTP call
of that request — is exactly the literal `"___prefill_addr_"`, then the
chosen prefill instance's transport (zmq) address, then `"___decode_addr_"`,
then the chosen decode instance's transport address, then `"_"`, then the
random hex suffix, with nothing else and in that order. -/
theorem request_id_format_spec (st : ProxyState) (req : ReqInput)
    (hp : st.prefill_instances.isEmpty = false)
    (hd : st.decode_instances.isEmpty = false) :
    ∀ c ∈ (handle_request st req).calls,
      c.header_request_id =
        "___prefill_addr_" ++
          (st.prefill_instances.getD (st.count % st.prefill_instances.length)
            dummyEntry).2.1 ++
        "___decode_addr_" ++
          (st.decode_instances.getD (st.count % st.decode_instances.length)
            dummyEntry).2.1 ++
        "_" ++ req.random_hex := by
  intro c hc
  cases hf : forwardRaises req.prefill_status
  · simp [handle_request, hp, hd, hf] at hc
    rcases hc with hc | hc <;> subst hc <;> simp [request_id_eq]
  · simp [handle_request, hp, hd, hf] at hc
    subst hc
    simp [request_id_eq]

/-- Witness for `request_id_format_spec` at a concrete state and request. -/
theorem request_id_format_spec_witness :
    ((handle_request ⟨0, [("pA", "pz", 10)], [("dX", "dz", 10)]⟩
        ⟨[], "/v1/completions", some 200, "abc123"⟩).calls.getD 0
          ⟨"", [], ""⟩).header_request_id =
      "___prefill_addr_pz___decode_addr_dz_abc123" := by
  have h := request_id_format_spec ⟨0, [("pA", "pz", 10)], [("dX", "dz", 10)]⟩
    ⟨[], "/v1/completions", some 200, "abc123"⟩ rfl rfl
  have h2 := h ((handle_request ⟨0, [("pA", "pz", 10)], [("dX", "dz", 10)]⟩
    ⟨[], "/v1/completions", some 200, "abc123"⟩).calls.getD 0 ⟨"", [], ""⟩)
    (by decide)
  simpa using h2

/-- C5: when the prefill pool or the decode pool is empty at routing time,
the handler answers with a 503 JSON error, issues no outbound HTTP call, and
leaves the proxy state (counter and both registries) unchanged. -/
theorem empty_pool_503_spec (st : ProxyState) (req : ReqInput)
    (h : st.prefill_instances.isEmpty = true ∨ st.decode_instances.isEmpty = true) :
    (∃ msg, (handle_request st req).response = ProxyResponse.json_error 503 msg) ∧
    (handle_request st req).calls = [] ∧
    (handle_request st req).state = st := by
  by_cases hp : st.prefill_instances.isEmpty
  · exact ⟨⟨"没有可用的 Prefill 实例", by simp [handle_request, hp]⟩,
      by simp [handle_request, hp], by simp [handle_request, hp]⟩
  · have hd : st.decode_instances.isEmpty = true := by tauto
    exact ⟨⟨"没有可用的 Decode 实例", by simp [handle_request, hp, hd]⟩,
      by simp [handle_request, hp, hd], by simp [handle_request, hp, hd]⟩

/-- Witness for `empty_pool_503_spec`: an empty prefill pool with a
populated decode pool. -/
theorem empty_pool_503_spec_witness :
    (∃ msg, (handle_request ⟨7, [], [("dX", "dz", 10)]⟩
        ⟨[], "/v1/completions", some 200, "ab"⟩).response =
      ProxyResponse.json_error 503 msg) ∧
    (handle_request ⟨7, [], [("dX", "dz", 10)]⟩
        ⟨[], "/v1/completions", some 200, "ab"⟩).calls = [] ∧
    (handle_request ⟨7, [], [("dX", "dz", 10)]⟩
        ⟨[], "/v1/completions", some 200, "ab"⟩).state =
      ⟨7, [], [("dX", "dz", 10)]⟩ :=
  empty_pool_503_spec ⟨7, [], [("dX", "dz", 10)]⟩
    ⟨[], "/v1/completions", some 200, "ab"⟩ (Or.inl rfl)

/-- C6: when the prefill call fails — any non-2xx HTTP status (all of which
raise, since only 200 streams) or a transport error — the client receives a
500 JSON error and the only outbound call of the request is the prefill one:
the decode HTTP call is never issued. -/
theorem prefill_failure_spec (st : ProxyState) (req : ReqInput)
    (hp : st.prefill_instances.isEmpty = false)
    (hd : st.decode_instances.isEmpty = false)
    (hfail : ∀ s, req.prefill_status = some s → s < 200 ∨ 300 ≤ s) :
    (∃ msg, (handle_request st req).response = ProxyResponse.json_error 500 msg) ∧
    (handle_request st req).calls =
      [⟨"http://" ++
          (st.prefill_instances.getD (st.count % st.prefill_instances.length)
            dummyEntry).1 ++ req.path,
        mkPrefillRequest req.payload,
        request_id
          (st.prefill_instances.getD (st.count % st.prefill_instances.length)
            dummyEntry).2.1
          (st.decode_instances.getD (st.count % st.decode_instances.length)
            dummyEntry).2.1
          req.random_hex⟩] := by
  have hf : forwardRaises req.prefill_status = true := by
    cases hs : req.prefill_status with
    | none => rfl
    | some s =>
      have := hfail s hs
      simp only [forwardRaises, bne_iff_ne, ne_eq]
      omega
  exact ⟨⟨"Prefill 失败", by simp [handle_request, hp, hd, hf]⟩,
    by simp [handle_request, hp, hd, hf]⟩

/-- Witness for `prefill_failure_spec`: the prefill instance answers
HTTP 500. -/
theorem prefill_failure_spec_witness :
    (∃ msg, (handle_request ⟨0, [("pA", "pz", 10)], [("dX", "dz", 10)]⟩
        ⟨[("max_tokens", JVal.num 7)], "/v1/completions", some 500, "ab"⟩).response =
      ProxyResponse.json_error 500 msg) ∧
    (handle_request ⟨0, [("pA", "pz", 10)], [("dX", "dz", 10)]⟩
        ⟨[("max_tokens", JVal.num 7)], "/v1/completions", some 500, "ab"⟩).calls =
      [⟨"http://pA/v1/completions", [("max_tokens", JVal.num 1)],
        request_id "pz" "dz" "ab"⟩] :=
  prefill_failure_spec ⟨0, [("pA", "pz", 10)], [("dX", "dz", 10)]⟩
    ⟨[("max_tokens", JVal.num 7)], "/v1/completions", some 500, "ab"⟩ rfl rfl
    (fun s hs => by simp only [Option.some.injEq] at hs; omega)

/-! ### Payload handling (C8) -/

theorem bool_eq_of_iff {a b : Bool} (h : a = true ↔ b = true) : a = b := by
  cases a <;> cases b <;> simp_all

theorem dictContains_iff {β : Type} (k : String) (d : List (String × β)) :
    dictContains k d = true ↔ k ∈ d.map Prod.fst := by
  simp only [dictContains, List.any_eq_true, beq_iff_eq, List.mem_map]

theorem dictContains_dictInsert_ne {β : Type} (k k' : String) (v : β)
    (d : List (String × β)) (hne : k' ≠ k) :
    dictContains k' (dictInsert k v d) = dictContains k' d := by
  apply bool_eq_of_iff
  rw [dictContains_iff, dictContains_iff]
  by_cases hm : k ∈ d.map Prod.fst
  · rw [dictInsert_keys_of_mem k v d hm]
  · rw [dictInsert_of_not_mem k v d hm]
    simp [hne]

/-- C8 counterexample: the handler disables no streaming flag — for a
client payload carrying `"stream": true`, the prefill probe payload still
carries `"stream": true` unchanged; only `max_tokens` is rewritten. -/
theorem prefill_payload_stream_flag_counterexample :
    mkPrefillRequest [("stream", JVal.bool true), ("max_tokens", JVal.num 5)] =
      [("stream", JVal.bool true), ("max_tokens", JVal.num 1)] ∧
    dictGet "stream"
      (mkPrefillRequest
        [("stream", JVal.bool true), ("max_tokens", JVal.num 5)]) =
      some (JVal.bool true) :=
  ⟨rfl, rfl⟩

/-- C8 (amended): the prefill probe payload is the client payload with
`max_tokens` set to 1, `max_completion_tokens` set to 1 when that key is
present, and every other field — streaming flags included — unchanged; the
decode call (when issued) carries the client's original payload verbatim,
so the client's `max_tokens` value is unaffected by the prefill copy's
mutation. -/
theorem prefill_payload_mutation_spec (st : ProxyState) (req : ReqInput)
    (hp : st.prefill_instances.isEmpty = false)
    (hd : st.decode_instances.isEmpty = false)
    (hok : forwardRaises req.prefill_status = false) :
    dictGet "max_tokens" (mkPrefillRequest req.payload) = some (JVal.num 1) ∧
    (dictContains "max_completion_tokens" req.payload = true →
      dictGet "max_completion_tokens" (mkPrefillRequest req.payload) =
        some (JVal.num 1)) ∧
    (∀ k, k ≠ "max_tokens" → k ≠ "max_completion_tokens" →
      dictGet k (mkPrefillRequest req.payload) = dictGet k req.payload) ∧
    ((handle_request st req).calls.getD 0 ⟨"", [], ""⟩).payload =
      mkPrefillRequest req.payload ∧
    ((handle_request st req).calls.getD 1 ⟨"", [], ""⟩).payload = req.payload := by
  refine ⟨?_, ?_, ?_, ?_, ?_⟩
  · unfold mkPrefillRequest
    by_cases hc : dictContains "max_completion_tokens"
        (dictInsert "max_tokens" (JVal.num 1) req.payload) = true
    · rw [if_pos hc]
      rw [dictGet_dictInsert_ne _ _ _ _ (by decide)]
      exact dictGet_dictInsert_self _ _ _
    · rw [if_neg hc]
      exact dictGet_dictInsert_self _ _ _
  · intro hc
    have hc' : dictContains "max_completion_tokens"
        (dictInsert "max_tokens" (JVal.num 1) req.payload) = true := by
      rw [dictContains_dictInsert_ne _ _ _ _ (by decide)]
      exact hc
    unfold mkPrefillRequest
    rw [if_pos hc']
    exact dictGet_dictInsert_self _ _ _
  · intro k hk1 hk2
    unfold mkPrefillRequest
    by_cases hc : dictContains "max_completion_tokens"
        (dictInsert "max_tokens" (JVal.num 1) req.payload) = true
    · rw [if_pos hc]
      rw [dictGet_dictInsert_ne _ _ _ _ hk2, dictGet_dictInsert_ne _ _ _ _ hk1]
    · rw [if_neg hc]
      rw [dictGet_dictInsert_ne _ _ _ _ hk1]
  · simp [handle_request, hp, hd, hok]
  · simp [handle_request, hp, hd, hok]

/-- Witness for `prefill_payload_mutation_spec` on a chat-style payload
with a `stream` flag. -/
theorem prefill_payload_mutation_spec_witness :
    dictGet "max_tokens"
      (mkPrefillRequest [("stream", JVal.bool true), ("max_tokens", JVal.num 5),
        ("max_completion_tokens", JVal.num 9)]) = some (JVal.num 1) ∧
    dictGet "max_completion_tokens"
      (mkPrefillRequest [("stream", JVal.bool true), ("max_tokens", JVal.num 5),
        ("max_completion_tokens", JVal.num 9)]) = some (JVal.num 1) ∧
    dictGet "stream"
      (mkPrefillRequest [("stream", JVal.bool true), ("max_tokens", JVal.num 5),
        ("max_completion_tokens", JVal.num 9)]) =
      dictGet "stream" [("stream", JVal.bool true), ("max_tokens", JVal.num 5),
        ("max_completion_tokens", JVal.num 9)] ∧
    ((handle_request ⟨0, [("pA", "pz", 10)], [("dX", "dz", 10)]⟩
        ⟨[("stream", JVal.bool true), ("max_tokens", JVal.num 5),
          ("max_completion_tokens", JVal.num 9)], "/v1/chat/completions",
          some 200, "ab"⟩).calls.getD 1 ⟨"", [], ""⟩).payload =
      [("stream", JVal.bool true), ("max_tokens", JVal.num 5),
        ("max_completion_tokens", JVal.num 9)] := by
  have h := prefill_payload_mutation_spec
    ⟨0, [("pA", "pz", 10)], [("dX", "dz", 10)]⟩
    ⟨[("stream", JVal.bool true), ("max_tokens", JVal.num 5),
      ("max_completion_tokens", JVal.num 9)], "/v1/chat/completions",
      some 200, "ab"⟩ rfl rfl rfl
  exact ⟨h.1, h.2.1 (by decide), h.2.2.1 "stream" (by decide) (by decide),
    h.2.2.2.2⟩

/-! ### Static configuration (C9) -/

theorem remove_oldest_of_all_fresh (t : Nat) (reg : Registry)
    (h : ∀ e ∈ reg, t < e.2.2) : remove_oldest_instances t reg = reg := by
  cases reg with
  | nil => rfl
  | cons e rest =>
    have he : t < e.2.2 := h e (List.mem_cons_self e rest)
    simp [remove_oldest_instances, he]

theorem init_static_stamps (addrs : List String) (now : Nat) (reg : Registry)
    (h : ∀ e ∈ reg, e.2.2 = now + 999999) :
    ∀ e ∈ init_static_instances addrs now reg, e.2.2 = now + 999999 := by
  induction addrs generalizing reg with
  | nil => exact h
  | cons a rest ih =>
    refine ih (dictInsert a (a, now + 999999) reg) ?_
    intro e he
    rcases mem_of_mem_dictInsert a (a, now + 999999) reg e he with h' | h'
    · subst h'; rfl
    · exact h e h'

theorem init_static_not_mem (addrs : List String) (now : Nat) (reg : Registry)
    (addr : String) (h : addr ∉ addrs) :
    dictGet addr (init_static_instances addrs now reg) = dictGet addr reg := by
  induction addrs generalizing reg with
  | nil => rfl
  | cons a rest ih =>
    simp only [List.mem_cons] at h
    push_neg at h
    have hstep : init_static_instances (a :: rest) now reg =
        init_static_instances rest now (dictInsert a (a, now + 999999) reg) := rfl
    rw [hstep, ih (dictInsert a (a, now + 999999) reg) h.2]
    exact dictGet_dictInsert_ne a addr _ reg h.1

theorem init_static_mem (addrs : List String) (now : Nat) (reg : Registry)
    (addr : String) (h : addr ∈ addrs) :
    dictGet addr (init_static_instances addrs now reg) =
      some (addr, now + 999999) := by
  induction addrs generalizing reg with
  | nil => simp at h
  | cons a rest ih =>
    have hstep : init_static_instances (a :: rest) now reg =
        init_static_instances rest now (dictInsert a (a, now + 999999) reg) := rfl
    rw [hstep]
    by_cases hm : addr ∈ rest
    · exact ih (dictInsert a (a, now + 999999) reg) hm
    · have ha : addr = a := by
        rcases List.mem_cons.mp h with h' | h'
        · exact h'
        · exact absurd h' hm
      subst ha
      rw [init_static_not_mem rest now _ addr hm]
      exact dictGet_dictInsert_self _ _ _

/-- C9 counterexample: statically configured entries are not permanent —
their stamp is `now + 999999`, so the eviction pass triggered by a dynamic
registration 1000000 seconds after initialization removes the static
instance. -/
theorem static_instance_expiry_counterexample :
    register_instance 1000000 "b:2" "z:2"
        (init_static_instances ["a:1"] 0 []) = [("b:2", "z:2", 1000005)] ∧
    dictGet "a:1"
      (register_instance 1000000 "b:2" "z:2"
        (init_static_instances ["a:1"] 0 [])) = none :=
  ⟨rfl, rfl⟩

/-- C9 (amended): for every address in a static configuration list,
initialization inserts an entry whose transport address equals its public
address and whose expiry stamp is 999999 seconds after initialization; no
eviction pass run strictly before that deadline removes any of these
entries (effectively never in practice), though a pass after the deadline
can. -/
theorem static_instance_init_spec (addrs : List String) (now : Nat)
    (addr : String) (h : addr ∈ addrs) :
    dictGet addr (init_static_instances addrs now []) =
      some (addr, now + 999999) ∧
    ∀ t, t < now + 999999 →
      remove_oldest_instances t (init_static_instances addrs now []) =
        init_static_instances addrs now [] := by
  refine ⟨init_static_mem addrs now [] addr h, ?_⟩
  intro t ht
  refine remove_oldest_of_all_fresh t _ ?_
  intro e he
  rw [init_static_stamps addrs now [] (by simp) e he]
  exact ht

/-- Witness for `static_instance_init_spec`: one static address, checked
right before its expiry deadline. -/
theorem static_instance_init_spec_witness :
    dictGet "a:1" (init_static_instances ["a:1"] 0 []) =
      some ("a:1", 999999) ∧
    remove_oldest_instances 999998 (init_static_instances ["a:1"] 0 []) =
      init_static_instances ["a:1"] 0 [] := by
  have h := static_instance_init_spec ["a:1"] 0 "a:1" (by decide)
  exact ⟨h.1, h.2 999998 (by decide)⟩

/-! ### Round-robin selection and the shared counter (C3, C10) -/

theorem length_pos_of_isEmpty_false {α : Type} (l : List α)
    (h : l.isEmpty = false) : 0 < l.length := by
  cases l with
  | nil => simp at h
  | cons x xs => simp

theorem handle_request_selIdx (st : ProxyState) (req : ReqInput)
    (hp : st.prefill_instances.isEmpty = false)
    (hd : st.decode_instances.isEmpty = false) :
    (handle_request st req).selIdx =
      some (st.count % st.prefill_instances.length,
        st.count % st.decode_instances.length) ∧
    (handle_request st req).chosen =
      some (((st.prefill_instances.getD
                (st.count % st.prefill_instances.length) dummyEntry).1,
             (st.prefill_instances.getD
                (st.count % st.prefill_instances.length) dummyEntry).2.1),
            ((st.decode_instances.getD
                (st.count % st.decode_instances.length) dummyEntry).1,
             (st.decode_instances.getD
                (st.count % st.decode_instances.length) dummyEntry).2.1)) ∧
    (handle_request st req).state =
      ⟨st.count + 1, st.prefill_instances, st.decode_instances⟩ := by
  cases hf : forwardRaises req.prefill_status <;>
    simp [handle_request, hp, hd, hf]

theorem handle_request_count (st : ProxyState) (req : ReqInput) :
    (handle_request st req).state.count =
      st.count + (if (handle_request st req).selIdx.isSome then 1 else 0) := by
  by_cases hp : st.prefill_instances.isEmpty
  · simp [handle_request, hp]
  · by_cases hd : st.decode_instances.isEmpty
    · simp [handle_request, hp, hd]
    · cases hf : forwardRaises req.prefill_status <;>
        simp [handle_request, hp, hd, hf]

theorem runRequests_get (ps ds : Registry) (reqs : List ReqInput) (c n : Nat)
    (hp : ps.isEmpty = false) (hd : ds.isEmpty = false)
    (hn : n < reqs.length) :
    (runRequests ⟨c, ps, ds⟩ reqs).2.getD n dummyOutcome =
      handle_request ⟨c + n, ps, ds⟩ (reqs.getD n dummyReq) := by
  induction reqs generalizing c n with
  | nil => simp at hn
  | cons req rest ih =>
    have hstate : (handle_request ⟨c, ps, ds⟩ req).state = ⟨c + 1, ps, ds⟩ :=
      (handle_request_selIdx ⟨c, ps, ds⟩ req hp hd).2.2
    cases n with
    | zero =>
      show (handle_request ⟨c, ps, ds⟩ req ::
        (runRequests (handle_request ⟨c, ps, ds⟩ req).state rest).2).getD 0
          dummyOutcome = _
      simp
    | succ n =>
      show (handle_request ⟨c, ps, ds⟩ req ::
        (runRequests (handle_request ⟨c, ps, ds⟩ req).state rest).2).getD (n + 1)
          dummyOutcome = _
      rw [List.getD_cons_succ, hstate,
        ih (c + 1) n (by simpa using Nat.lt_of_succ_lt_succ hn)]
      have hc : c + 1 + n = c + (n + 1) := by omega
      rw [hc]
      rfl

theorem runRequests_outcomes (ps ds : Registry) (reqs : List ReqInput) (c : Nat)
    (hp : ps.isEmpty = false) (hd : ds.isEmpty = false) :
    ((runRequests ⟨c, ps, ds⟩ reqs).2.map fun o => o.selIdx) =
      (List.range reqs.length).map fun n =>
        some ((c + n) % ps.length, (c + n) % ds.length) := by
  induction reqs generalizing c with
  | nil => rfl
  | cons req rest ih =>
    have hsel := handle_request_selIdx ⟨c, ps, ds⟩ req hp hd
    show (handle_request ⟨c, ps, ds⟩ req).selIdx ::
        ((runRequests (handle_request ⟨c, ps, ds⟩ req).state rest).2.map
          fun o => o.selIdx) = _
    rw [hsel.2.2, hsel.1, ih (c + 1)]
    show _ = (List.range (rest.length + 1)).map _
    rw [List.range_succ_eq_map, List.map_cons, List.map_map]
    have hfun : ((fun n => some ((c + n) % ps.length, (c + n) % ds.length)) ∘
        Nat.succ) =
        fun n => some ((c + 1 + n) % ps.length, (c + 1 + n) % ds.length) := by
      funext n
      have hc : c + Nat.succ n = c + 1 + n := by omega
      simp only [Function.comp_apply, hc]
    rw [hfun]
    simp

theorem runRequests_count (st : ProxyState) (reqs : List ReqInput) :
    (runRequests st reqs).1.count =
      st.count +
        ((runRequests st reqs).2.countP fun o => o.selIdx.isSome) := by
  induction reqs generalizing st with
  | nil => simp [runRequests]
  | cons req rest ih =>
    show (runRequests (handle_request st req).state rest).1.count =
      st.count + ((handle_request st req ::
        (runRequests (handle_request st req).state rest).2).countP
          fun o => o.selIdx.isSome)
    rw [ih]
    simp only [List.countP_cons]
    have hcount := handle_request_count st req
    rw [hcount]
    split_ifs with h <;> omega

theorem countP_range_mod (N K j : Nat) (hK : 0 < K) (hj : j < K) :
    (List.range N).countP (fun n => n % K == j) =
      N / K + if j < N % K then 1 else 0 := by
  induction N with
  | zero => simp
  | succ N ihN =>
    rw [List.range_succ, List.countP_append, ihN]
    have hmodlt : N % K < K := Nat.mod_lt N hK
    have hdm := Nat.div_add_mod N K
    rcases Nat.lt_or_ge (N % K + 1) K with hcase | hcase
    · have hsplit : N + 1 = (N % K + 1) + K * (N / K) := by omega
      have hmod : (N + 1) % K = N % K + 1 := by
        rw [hsplit, Nat.add_mul_mod_self_left, Nat.mod_eq_of_lt hcase]
      have hdiv : (N + 1) / K = N / K := by
        rw [hsplit, Nat.add_mul_div_left _ _ hK, Nat.div_eq_of_lt hcase]
        omega
      rw [hmod, hdiv]
      simp only [List.countP_cons, List.countP_nil, beq_iff_eq]
      split_ifs <;> omega
    · have heq : N % K + 1 = K := by omega
      have hmul : K * (N / K + 1) = K * (N / K) + K := Nat.mul_succ K (N / K)
      have hsplit : N + 1 = K * (N / K + 1) := by omega
      have hmod : (N + 1) % K = 0 := by
        rw [hsplit, Nat.mul_mod_right]
      have hdiv : (N + 1) / K = N / K + 1 := by
        rw [hsplit, Nat.mul_div_cancel_left _ hK]
      rw [hmod, hdiv]
      simp only [List.countP_cons, List.countP_nil, beq_iff_eq]
      split_ifs <;> omega

theorem ceil_div_eq (N K : Nat) (hK : 0 < K) :
    (N + K - 1) / K = N / K + if N % K = 0 then 0 else 1 := by
  have hdm := Nat.div_add_mod N K
  have hmodlt : N % K < K := Nat.mod_lt N hK
  rcases Nat.eq_zero_or_pos (N % K) with h | h
  · have hstep : N + K - 1 = (K - 1) + K * (N / K) := by omega
    rw [hstep, Nat.add_mul_div_left _ _ hK, Nat.div_eq_of_lt (by omega)]
    simp [h]
  · have hmul : K * (N / K + 1) = K * (N / K) + K := Nat.mul_succ K (N / K)
    have hstep : N + K - 1 = (N % K - 1) + K * (N / K + 1) := by omega
    rw [hstep, Nat.add_mul_div_left _ _ hK, Nat.div_eq_of_lt (by omega)]
    have hne : ¬(N % K = 0) := by omega
    simp [hne]

/-- C3: against stable non-empty registries and the counter starting at 0,
the n-th sequential request (counter value n) selects prefill index
`n % len(prefill)` and decode index `n % len(decode)` — the same n for both
roles — so its chosen pair is the entries at those indices; and over the
whole run the instance at index `jp` of the prefill pool (respectively `jd`
of the decode pool) is selected exactly `⌊N/K⌋` or `⌈N/K⌉ = (N + K - 1)/K`
times, where N is the number of requests and K the pool size. -/
theorem round_robin_spec (ps ds : Registry) (reqs : List ReqInput)
    (n jp jd : Nat)
    (hp : ps.isEmpty = false) (hd : ds.isEmpty = false)
    (hn : n < reqs.length) (hjp : jp < ps.length) (hjd : jd < ds.length) :
    ((runRequests ⟨0, ps, ds⟩ reqs).2.getD n dummyOutcome).selIdx =
      some (n % ps.length, n % ds.length) ∧
    ((runRequests ⟨0, ps, ds⟩ reqs).2.getD n dummyOutcome).chosen =
      some (((ps.getD (n % ps.length) dummyEntry).1,
             (ps.getD (n % ps.length) dummyEntry).2.1),
            ((ds.getD (n % ds.length) dummyEntry).1,
             (ds.getD (n % ds.length) dummyEntry).2.1)) ∧
    ((runRequests ⟨0, ps, ds⟩ reqs).2.countP
        (fun o => o.selIdx.map Prod.fst == some jp) =
          reqs.length / ps.length ∨
      (runRequests ⟨0, ps, ds⟩ reqs).2.countP
        (fun o => o.selIdx.map Prod.fst == some jp) =
          (reqs.length + ps.length - 1) / ps.length) ∧
    ((runRequests ⟨0, ps, ds⟩ reqs).2.countP
        (fun o => o.selIdx.map Prod.snd == some jd) =
          reqs.length / ds.length ∨
      (runRequests ⟨0, ps, ds⟩ reqs).2.countP
        (fun o => o.selIdx.map Prod.snd == some jd) =
          (reqs.length + ds.length - 1) / ds.length) := by
  have hPpos : 0 < ps.length := length_pos_of_isEmpty_false ps hp
  have hDpos : 0 < ds.length := length_pos_of_isEmpty_false ds hd
  have hget := runRequests_get ps ds reqs 0 n hp hd hn
  rw [Nat.zero_add] at hget
  have hsel := handle_request_selIdx ⟨n, ps, ds⟩ (reqs.getD n dummyReq) hp hd
  have hmap := runRequests_outcomes ps ds reqs 0 hp hd
  have hcntp : ((runRequests ⟨0, ps, ds⟩ reqs).2.countP
      (fun o => o.selIdx.map Prod.fst == some jp)) =
      (List.range reqs.length).countP (fun m => m % ps.length == jp) := by
    have h1 : ((runRequests ⟨0, ps, ds⟩ reqs).2.countP
        (fun o => o.selIdx.map Prod.fst == some jp)) =
        (((runRequests ⟨0, ps, ds⟩ reqs).2.map fun o => o.selIdx).countP
          (fun s => s.map Prod.fst == some jp)) :=
      (List.countP_map (fun s : Option (Nat × Nat) => s.map Prod.fst == some jp)
        (fun o : ReqOutcome => o.selIdx) (runRequests ⟨0, ps, ds⟩ reqs).2).symm
    rw [h1, hmap, List.countP_map]
    refine List.countP_congr fun m hm => ?_
    have h0 : 0 + m = m := Nat.zero_add m
    simp only [Function.comp_apply, h0]
    exact Iff.rfl
  have hcntd : ((runRequests ⟨0, ps, ds⟩ reqs).2.countP
      (fun o => o.selIdx.map Prod.snd == some jd)) =
      (List.range reqs.length).countP (fun m => m % ds.length == jd) := by
    have h1 : ((runRequests ⟨0, ps, ds⟩ reqs).2.countP
        (fun o => o.selIdx.map Prod.snd == some jd)) =
        (((runRequests ⟨0, ps, ds⟩ reqs).2.map fun o => o.selIdx).countP
          (fun s => s.map Prod.snd == some jd)) :=
      (List.countP_map (fun s : Option (Nat × Nat) => s.map Prod.snd == some jd)
        (fun o : ReqOutcome => o.selIdx) (runRequests ⟨0, ps, ds⟩ reqs).2).symm
    rw [h1, hmap, List.countP_map]
    refine List.countP_congr fun m hm => ?_
    have h0 : 0 + m = m := Nat.zero_add m
    simp only [Function.comp_apply, h0]
    exact Iff.rfl
  refine ⟨?_, ?_, ?_, ?_⟩
  · rw [hget]
    exact hsel.1
  · rw [hget]
    exact hsel.2.1
  · by_cases hz : jp < reqs.length % ps.length
    · refine Or.inr ?_
      rw [hcntp, countP_range_mod _ _ _ hPpos hjp, ceil_div_eq _ _ hPpos,
        if_pos hz, if_neg (show ¬reqs.length % ps.length = 0 by omega)]
    · refine Or.inl ?_
      rw [hcntp, countP_range_mod _ _ _ hPpos hjp, if_neg hz]
      omega
  · by_cases hz : jd < reqs.length % ds.length
    · refine Or.inr ?_
      rw [hcntd, countP_range_mod _ _ _ hDpos hjd, ceil_div_eq _ _ hDpos,
        if_pos hz, if_neg (show ¬reqs.length % ds.length = 0 by omega)]
    · refine Or.inl ?_
      rw [hcntd, countP_range_mod _ _ _ hDpos hjd, if_neg hz]
      omega

/-- Witness for `round_robin_spec`: prefill pool {A, B}, decode pool {X, Y},
four sequential requests, pairing sequence (A,X), (B,Y), (A,X), (B,Y); the
instance at prefill index 0 is chosen exactly 2 = 4/2 times. -/
theorem round_robin_spec_witness :
    ((runRequests ⟨0, [("A", "zA", 100), ("B", "zB", 100)],
        [("X", "zX", 100), ("Y", "zY", 100)]⟩
        [⟨[], "/v1/completions", some 200, "r"⟩,
         ⟨[], "/v1/completions", some 200, "r"⟩,
         ⟨[], "/v1/completions", some 200, "r"⟩,
         ⟨[], "/v1/completions", some 200, "r"⟩]).2.getD 0 dummyOutcome).chosen =
      some (("A", "zA"), ("X", "zX")) ∧
    ((runRequests ⟨0, [("A", "zA", 100), ("B", "zB", 100)],
        [("X", "zX", 100), ("Y", "zY", 100)]⟩
        [⟨[], "/v1/completions", some 200, "r"⟩,
         ⟨[], "/v1/completions", some 200, "r"⟩,
         ⟨[], "/v1/completions", some 200, "r"⟩,
         ⟨[], "/v1/completions", some 200, "r"⟩]).2.getD 1 dummyOutcome).chosen =
      some (("B", "zB"), ("Y", "zY")) ∧
    ((runRequests ⟨0, [("A", "zA", 100), ("B", "zB", 100)],
        [("X", "zX", 100), ("Y", "zY", 100)]⟩
        [⟨[], "/v1/completions", some 200, "r"⟩,
         ⟨[], "/v1/completions", some 200, "r"⟩,
         ⟨[], "/v1/completions", some 200, "r"⟩,
         ⟨[], "/v1/completions", some 200, "r"⟩]).2.getD 2 dummyOutcome).chosen =
      some (("A", "zA"), ("X", "zX")) ∧
    ((runRequests ⟨0, [("A", "zA", 100), ("B", "zB", 100)],
        [("X", "zX", 100), ("Y", "zY", 100)]⟩
        [⟨[], "/v1/completions", some 200, "r"⟩,
         ⟨[], "/v1/completions", some 200, "r"⟩,
         ⟨[], "/v1/completions", some 200, "r"⟩,
         ⟨[], "/v1/completions", some 200, "r"⟩]).2.getD 3 dummyOutcome).chosen =
      some (("B", "zB"), ("Y", "zY")) ∧
    ((runRequests ⟨0, [("A", "zA", 100), ("B", "zB", 100)],
        [("X", "zX", 100), ("Y", "zY", 100)]⟩
        [⟨[], "/v1/completions", some 200, "r"⟩,
         ⟨[], "/v1/completions", some 200, "r"⟩,
         ⟨[], "/v1/completions", some 200, "r"⟩,
         ⟨[], "/v1/completions", some 200, "r"⟩]).2.countP
        (fun o => o.selIdx.map Prod.fst == some 0)) = 2 := by
  refine ⟨?_, ?_, ?_, ?_, ?_⟩
  · exact (round_robin_spec [("A", "zA", 100), ("B", "zB", 100)]
      [("X", "zX", 100), ("Y", "zY", 100)]
      [⟨[], "/v1/completions", some 200, "r"⟩,
       ⟨[], "/v1/completions", some 200, "r"⟩,
       ⟨[], "/v1/completions", some 200, "r"⟩,
       ⟨[], "/v1/completions", some 200, "r"⟩] 0 0 0 rfl rfl
      (by decide) (by decide) (by decide)).2.1
  · exact (round_robin_spec [("A", "zA", 100), ("B", "zB", 100)]
      [("X", "zX", 100), ("Y", "zY", 100)]
      [⟨[], "/v1/completions", some 200, "r"⟩,
       ⟨[], "/v1/completions", some 200, "r"⟩,
       ⟨[], "/v1/completions", some 200, "r"⟩,
       ⟨[], "/v1/completions", some 200, "r"⟩] 1 0 0 rfl rfl
      (by decide) (by decide) (by decide)).2.1
  · exact (round_robin_spec [("A", "zA", 100), ("B", "zB", 100)]
      [("X", "zX", 100), ("Y", "zY", 100)]
      [⟨[], "/v1/completions", some 200, "r"⟩,
       ⟨[], "/v1/completions", some 200, "r"⟩,
       ⟨[], "/v1/completions", some 200, "r"⟩,
       ⟨[], "/v1/completions", some 200, "r"⟩] 2 0 0 rfl rfl
      (by decide) (by decide) (by decide)).2.1
  · exact (round_robin_spec [("A", "zA", 100), ("B", "zB", 100)]
      [("X", "zX", 100), ("Y", "zY", 100)]
      [⟨[], "/v1/completions", some 200, "r"⟩,
       ⟨[], "/v1/completions", some 200, "r"⟩,
       ⟨[], "/v1/completions", some 200, "r"⟩,
       ⟨[], "/v1/completions", some 200, "r"⟩] 3 0 0 rfl rfl
      (by decide) (by decide) (by decide)).2.1
  · exact ((round_robin_spec [("A", "zA", 100), ("B", "zB", 100)]
      [("X", "zX", 100), ("Y", "zY", 100)]
      [⟨[], "/v1/completions", some 200, "r"⟩,
       ⟨[], "/v1/completions", some 200, "r"⟩,
       ⟨[], "/v1/completions", some 200, "r"⟩,
       ⟨[], "/v1/completions", some 200, "r"⟩] 0 0 0 rfl rfl
      (by decide) (by decide) (by decide)).2.2.1).elim (fun h => h) (fun h => h)

/-- C10: the shared counter is incremented exactly once per request that
passes the non-empty-pool checks — including requests whose prefill call
subsequently fails — and not at all for requests rejected with 503 on an
empty pool; consequently the `total_requests` reported by `/stats` equals
the starting count plus the number of requests for which instance selection
was performed, not the number of successfully completed requests. -/
theorem counter_increment_spec (st : ProxyState) (req : ReqInput)
    (reqs : List ReqInput) :
    ((st.prefill_instances.isEmpty = false ∧
        st.decode_instances.isEmpty = false) →
      (handle_request st req).state.count = st.count + 1 ∧
      (handle_request st req).selIdx.isSome = true) ∧
    ((st.prefill_instances.isEmpty = true ∨
        st.decode_instances.isEmpty = true) →
      (handle_request st req).state.count = st.count ∧
      (handle_request st req).selIdx = none) ∧
    (stats (runRequests st reqs).1).total_requests =
      st.count + ((runRequests st reqs).2.countP fun o => o.selIdx.isSome) := by
  refine ⟨?_, ?_, ?_⟩
  · rintro ⟨hp, hd⟩
    cases hf : forwardRaises req.prefill_status <;>
      simp [handle_request, hp, hd, hf]
  · intro h
    by_cases hp : st.prefill_instances.isEmpty
    · simp [handle_request, hp]
    · have hd : st.decode_instances.isEmpty = true := by tauto
      simp [handle_request, hp, hd]
  · show (runRequests st reqs).1.count = _
    exact runRequests_count st reqs

/-- Witness for `counter_increment_spec`: a request whose prefill call
answers HTTP 500 still increments the counter; an empty-pool request leaves
it unchanged; over a concrete 2-request run (one failed, one streamed),
`/stats` reports the number of selections performed. -/
theorem counter_increment_spec_witness :
    (handle_request ⟨3, [("pA", "pz", 10)], [("dX", "dz", 10)]⟩
        ⟨[], "/v1/completions", some 500, "r"⟩).state.count = 3 + 1 ∧
    (handle_request ⟨3, [], []⟩
        ⟨[], "/v1/completions", some 500, "r"⟩).state.count = 3 ∧
    (stats (runRequests ⟨0, [("pA", "pz", 10)], [("dX", "dz", 10)]⟩
        [⟨[], "/v1/completions", some 500, "r"⟩,
         ⟨[], "/v1/completions", some 200, "r"⟩]).1).total_requests =
      0 + ((runRequests ⟨0, [("pA", "pz", 10)], [("dX", "dz", 10)]⟩
        [⟨[], "/v1/completions", some 500, "r"⟩,
         ⟨[], "/v1/completions", some 200, "r"⟩]).2.countP
          fun o => o.selIdx.isSome) := by
  refine ⟨?_, ?_, ?_⟩
  · exact ((counter_increment_spec ⟨3, [("pA", "pz", 10)], [("dX", "dz", 10)]⟩
      ⟨[], "/v1/completions", some 500, "r"⟩ []).1 ⟨rfl, rfl⟩).1
  · exact ((counter_increment_spec ⟨3, [], []⟩
      ⟨[], "/v1/completions", some 500, "r"⟩ []).2.1 (Or.inl rfl)).1
  · exact (counter_increment_spec ⟨0, [("pA", "pz", 10)], [("dX", "dz", 10)]⟩
      ⟨[], "/v1/completions", some 500, "r"⟩
      [⟨[], "/v1/completions", some 500, "r"⟩,
       ⟨[], "/v1/completions", some 200, "r"⟩]).2.2

end DisaggProxy
